import Mathlib

/-!
Verification of the ts-weathermap telemetry and rendering core.

The definitions below are shallow embeddings of the TypeScript source:
numbers are modelled as exact rationals, `null`/`undefined` as `Option`,
and the abstract `Math.hypot` / `Math.log` primitives are passed in as
function parameters together with the properties the proofs need.
-/

namespace Weathermap

/-- Health status of an interface, router or link (shared/types.ts). -/
inductive MetricStatus where
  | ok
  | warning
  | critical
  | error
deriving DecidableEq, Repr

/-- Entry of the module-level counter cache (snmp.ts, `SampleCacheEntry`). -/
structure SampleCacheEntry where
  inOctets : ℚ
  outOctets : ℚ
  timestamp : ℚ
deriving DecidableEq, Repr

/-- The `direction` argument of `computeThroughput` ("in" | "out"). -/
inductive Direction where
  | inDir
  | outDir
deriving DecidableEq, Repr

/-- The previous counter value selected by direction (snmp.ts line 99). -/
def prevValue (d : Direction) (p : SampleCacheEntry) : ℚ :=
  match d with
  | .inDir => p.inOctets
  | .outDir => p.outOctets

/-- snmp.ts `computeThroughput`: convert a counter pair into a bit rate. -/
def computeThroughput (current : Option ℚ) (previous : Option SampleCacheEntry)
    (deltaMs : ℚ) (d : Direction) : ℚ × Bool :=
  match current, previous with
  | none, _ => (0, false)
  | some _, none => (0, false)
  | some c, some p =>
    if deltaMs ≤ 0 then (0, false)
    else
      let previousValue := prevValue d p
      if c < previousValue then (0, false)
      else
        let octetDelta := c - previousValue
        let bits := octetDelta * 8
        let seconds := deltaMs / 1000
        if seconds = 0 then (0, false)
        else (bits / seconds, true)

/-- snmp.ts `metricStatus`: error dominates, then 0.90/0.75 thresholds. -/
def metricStatus (utilization : ℚ) (hasError : Bool) : MetricStatus :=
  if hasError then .error
  else if (0.9 : ℚ) ≤ utilization then .critical
  else if (0.75 : ℚ) ≤ utilization then .warning
  else .ok

/-- Per-interface values available once the varbinds of a cycle were parsed
(`ifaceSample` just before the finalization loop of `pollRouter`). -/
structure IfaceReading where
  inOctets : Option ℚ
  outOctets : Option ℚ
  maxBandwidth : ℚ
  hasError : Bool
deriving DecidableEq, Repr

/-- The derived fields `pollRouter` publishes for one interface. -/
structure IfaceDerived where
  inBps : ℚ
  outBps : ℚ
  inUtilization : ℚ
  outUtilization : ℚ
  status : MetricStatus
  fresh : Bool
deriving DecidableEq, Repr

/-- The finalization loop body of `pollRouter` (snmp.ts lines 228-247):
rates via `computeThroughput`, utilization against `maxBandwidth > 0 ?
maxBandwidth : 1`, status via `metricStatus`, freshness of both directions. -/
def finalizeInterface (r : IfaceReading) (previous : Option SampleCacheEntry)
    (deltaMs : ℚ) : IfaceDerived :=
  let inResult := computeThroughput r.inOctets previous deltaMs .inDir
  let outResult := computeThroughput r.outOctets previous deltaMs .outDir
  let maxBandwidth := if 0 < r.maxBandwidth then r.maxBandwidth else 1
  let inUtil := inResult.1 / maxBandwidth
  let outUtil := outResult.1 / maxBandwidth
  { inBps := inResult.1
    outBps := outResult.1
    inUtilization := inUtil
    outUtilization := outUtil
    status := metricStatus (max inUtil outUtil) r.hasError
    fresh := inResult.2 && outResult.2 }

/-- C1: with a non-null current value, an existing previous cache entry,
elapsed_ms > 0 and current ≥ previous, `computeThroughput` returns exactly
(current − previous) × 8 / (elapsed_ms / 1000) with freshness true; with no
previous entry, elapsed ≤ 0, a null current value, or current < previous
(counter wrap/reset) it returns rate 0 with freshness false, and the
wrap/reset case is an ordinary return, not an error. -/
theorem computeThroughput_spec :
    ∀ (c : ℚ) (p : SampleCacheEntry) (deltaMs : ℚ) (d : Direction),
      (0 < deltaMs → prevValue d p ≤ c →
        computeThroughput (some c) (some p) deltaMs d =
          ((c - prevValue d p) * 8 / (deltaMs / 1000), true)) ∧
      (∀ cur prev, deltaMs ≤ 0 → computeThroughput cur prev deltaMs d = (0, false)) ∧
      (∀ prev, computeThroughput none prev deltaMs d = (0, false)) ∧
      (computeThroughput (some c) none deltaMs d = (0, false)) ∧
      (c < prevValue d p → computeThroughput (some c) (some p) deltaMs d = (0, false)) := by
  intro c p deltaMs d
  refine ⟨?_, ?_, ?_, ?_, ?_⟩
  · intro hpos hge
    have hnle : ¬ deltaMs ≤ 0 := not_le.mpr hpos
    have hnlt : ¬ c < prevValue d p := not_lt.mpr hge
    have hsec : ¬ deltaMs / 1000 = 0 := by
      intro h
      have : deltaMs = 0 := by field_simp at h; exact h
      exact hpos.ne' this
    simp only [computeThroughput, hnle, hnlt, hsec, if_false]
  · intro cur prev hle
    match cur, prev with
    | none, _ => rfl
    | some c', none => rfl
    | some c', some p' =>
      simp only [computeThroughput, if_pos hle]
  · intro prev
    match prev with
    | none => rfl
    | some p' => rfl
  · rfl
  · intro hlt
    by_cases hle : deltaMs ≤ 0
    · simp only [computeThroughput, if_pos hle]
    · simp only [computeThroughput, if_neg hle, if_pos hlt]

/-- C1 witness: concrete instance, 100 octets over 1000 ms gives 800 bps. -/
theorem computeThroughput_spec_witness :
    computeThroughput (some 100) (some ⟨0, 0, 0⟩) 1000 .inDir = (800, true) ∧
    computeThroughput (some 100) (some ⟨0, 0, 0⟩) 0 .inDir = (0, false) ∧
    computeThroughput (some 100) (some ⟨200, 0, 0⟩) 1000 .inDir = (0, false) := by
  have h := computeThroughput_spec 100 ⟨0, 0, 0⟩ 1000 .inDir
  have h0 := computeThroughput_spec 100 ⟨0, 0, 0⟩ 0 .inDir
  have hw := computeThroughput_spec 100 ⟨200, 0, 0⟩ 1000 .inDir
  refine ⟨?_, ?_, ?_⟩
  · have := h.1 (by norm_num) (by simp [prevValue])
    rw [this]
    simp only [prevValue]
    norm_num
  · exact h0.2.1 (some 100) (some ⟨0, 0, 0⟩) le_rfl
  · exact hw.2.2.2.2 (by simp [prevValue]; norm_num)

/-- C8: `metricStatus` returns error whenever hasError, else critical at
utilization ≥ 0.90, warning in [0.75, 0.90), ok below 0.75. -/
theorem metricStatus_spec :
    ∀ (u : ℚ) (e : Bool),
      (e = true → metricStatus u e = .error) ∧
      (e = false → (0.9 : ℚ) ≤ u → metricStatus u e = .critical) ∧
      (e = false → (0.75 : ℚ) ≤ u → u < (0.9 : ℚ) → metricStatus u e = .warning) ∧
      (e = false → u < (0.75 : ℚ) → metricStatus u e = .ok) := by
  intro u e
  refine ⟨?_, ?_, ?_, ?_⟩
  · intro he; simp [metricStatus, he]
  · intro he hc; simp [metricStatus, he, hc]
  · intro he hw hnc
    have h1 : ¬ (0.9 : ℚ) ≤ u := not_le.mpr hnc
    simp [metricStatus, he, h1, hw]
  · intro he ho
    have h1 : ¬ (0.9 : ℚ) ≤ u := not_le.mpr (lt_trans ho (by norm_num))
    have h2 : ¬ (0.75 : ℚ) ≤ u := not_le.mpr ho
    simp [metricStatus, he, h1, h2]

/-- C8 witness: the two cases named by the spec, 0.95 without error is
critical and 0.10 with error is error. -/
theorem metricStatus_spec_witness :
    metricStatus 0.95 false = .critical ∧ metricStatus 0.1 true = .error := by
  have h1 := metricStatus_spec 0.95 false
  have h2 := metricStatus_spec 0.1 true
  exact ⟨h1.2.1 rfl (by norm_num), h2.1 rfl⟩

/-- C2: with an unresolved capacity (maxBandwidth 0) the finalization step
of `pollRouter` divides by the fallback denominator 1, publishing an
enormous utilization (here 1000, i.e. 100000 %) with an ordinary status and
fresh = true; the published record carries no distinct unknown-capacity
flag, contradicting the spec's requirement that the unknown-capacity
condition be preserved as an observable signal. -/
theorem finalizeInterface_unknownCapacity_bug :
    finalizeInterface ⟨some 125, some 0, 0, false⟩ (some ⟨0, 0, 0⟩) 1000 =
      { inBps := 1000, outBps := 0, inUtilization := 1000, outUtilization := 0,
        status := .critical, fresh := true } := by
  norm_num [finalizeInterface, computeThroughput, prevValue, metricStatus]

/-- snmp.ts `cacheKey`: the string key of the module-level counter cache. -/
def cacheKey (routerId ifaceName : String) : String :=
  routerId ++ ":" ++ ifaceName

/-- The counter cache, a map from string keys to entries (snmp.ts
`sampleCache`); absent keys are `none`. -/
def Cache : Type := String → Option SampleCacheEntry

/-- `Map.set` on the cache. -/
def cacheSet (cache : Cache) (k : String) (v : SampleCacheEntry) : Cache :=
  fun k' => if k' = k then some v else cache k'

/-- The per-interface counter readings entering the cache-update loop of
`pollRouter` (name plus the possibly-missing parsed in/out octets). -/
structure IfaceCounters where
  name : String
  inOctets : Option ℚ
  outOctets : Option ℚ
deriving DecidableEq, Repr

/-- The cache-update portion of `pollRouter`'s finalization loop (snmp.ts
lines 249-255): the entry for `cacheKey routerId name` is overwritten
exactly when both octet counters parsed as numbers this cycle. -/
def updateSampleCache (routerId : String) (now : ℚ) (cache : Cache) :
    List IfaceCounters → Cache
  | [] => cache
  | i :: rest =>
    let cache' :=
      match i.inOctets, i.outOctets with
      | some a, some b => cacheSet cache (cacheKey routerId i.name) ⟨a, b, now⟩
      | _, _ => cache
    updateSampleCache routerId now cache' rest

lemma cacheKey_inj_right {rid a b : String} (h : cacheKey rid a = cacheKey rid b) :
    a = b := by
  have hd : (cacheKey rid a).data = (cacheKey rid b).data := by rw [h]
  simp only [cacheKey, String.data_append] at hd
  have := List.append_cancel_left hd
  exact congrArg String.mk this

lemma updateSampleCache_not_mem (rid : String) (now : ℚ) :
    ∀ (ifaces : List IfaceCounters) (cache : Cache) (k : String),
      (∀ i ∈ ifaces, k ≠ cacheKey rid i.name) →
      updateSampleCache rid now cache ifaces k = cache k := by
  intro ifaces
  induction ifaces with
  | nil => intro cache k _; rfl
  | cons i rest ih =>
    intro cache k hk
    have hki : k ≠ cacheKey rid i.name := hk i (List.mem_cons_self i rest)
    have hkr : ∀ j ∈ rest, k ≠ cacheKey rid j.name :=
      fun j hj => hk j (List.mem_cons_of_mem i hj)
    show updateSampleCache rid now _ (i :: rest) k = cache k
    rw [updateSampleCache, ih _ k hkr]
    match hin : i.inOctets, hout : i.outOctets with
    | some a, some b => simp [hin, hout, cacheSet, hki]
    | some _, none => simp [hin, hout]
    | none, some _ => simp [hin, hout]
    | none, none => simp [hin, hout]

lemma updateSampleCache_none (rid : String) (now : ℚ) :
    ∀ (ifaces : List IfaceCounters) (cache : Cache) (k : String),
      updateSampleCache rid now cache ifaces k = none → cache k = none := by
  intro ifaces
  induction ifaces with
  | nil => intro cache k h; exact h
  | cons i rest ih =>
    intro cache k h
    rw [updateSampleCache] at h
    have h' := ih _ k h
    revert h'
    match hin : i.inOctets, hout : i.outOctets with
    | some a, some b =>
      simp only [cacheSet]
      intro h'
      by_cases hk : k = cacheKey rid i.name
      · simp [hk] at h'
      · simpa [hk] using h'
    | some _, none => exact fun h' => h'
    | none, some _ => exact fun h' => h'
    | none, none => exact fun h' => h'

/-- C10: in one cycle, an interface's cache entry is overwritten (with the
new octet pair at the cycle's timestamp) iff both its in- and out-octet
counters were read as numbers; otherwise its entry is exactly the previous
one; keys not belonging to the cycle's interfaces are untouched; and no key
present before ends up deleted. -/
theorem updateSampleCache_spec :
    ∀ (rid : String) (now : ℚ) (cache : Cache) (ifaces : List IfaceCounters),
      (ifaces.map (·.name)).Nodup →
      (∀ i ∈ ifaces,
        updateSampleCache rid now cache ifaces (cacheKey rid i.name) =
          match i.inOctets, i.outOctets with
          | some a, some b => some ⟨a, b, now⟩
          | _, _ => cache (cacheKey rid i.name)) ∧
      (∀ k, (∀ i ∈ ifaces, k ≠ cacheKey rid i.name) →
        updateSampleCache rid now cache ifaces k = cache k) ∧
      (∀ k, updateSampleCache rid now cache ifaces k = none → cache k = none) := by
  intro rid now cache ifaces hnd
  refine ⟨?_, updateSampleCache_not_mem rid now ifaces cache,
    updateSampleCache_none rid now ifaces cache⟩
  induction ifaces generalizing cache with
  | nil => intro i hi; cases hi
  | cons j rest ih =>
    intro i hi
    have hndr : (rest.map (·.name)).Nodup := (List.nodup_cons.mp hnd).2
    have hjn : j.name ∉ rest.map (·.name) := (List.nodup_cons.mp hnd).1
    rcases List.mem_cons.mp hi with hij | hir
    · subst hij
      have hrest : ∀ x ∈ rest, cacheKey rid i.name ≠ cacheKey rid x.name := by
        intro x hx h
        exact hjn (by
          have : i.name = x.name := cacheKey_inj_right h
          rw [this]
          exact List.mem_map.mpr ⟨x, hx, rfl⟩)
      rw [updateSampleCache]
      rw [updateSampleCache_not_mem rid now rest _ _ hrest]
      match hin : i.inOctets, hout : i.outOctets with
      | some a, some b => simp [cacheSet]
      | some _, none => rfl
      | none, some _ => rfl
      | none, none => rfl
    · have hkey : cacheKey rid i.name ≠ cacheKey rid j.name := by
        intro h
        exact hjn (by
          have : i.name = j.name := cacheKey_inj_right h
          rw [← this]
          exact List.mem_map.mpr ⟨i, hir, rfl⟩)
      rw [updateSampleCache]
      have hstep :
          (match j.inOctets, j.outOctets with
            | some a, some b => cacheSet cache (cacheKey rid j.name) ⟨a, b, now⟩
            | _, _ => cache) (cacheKey rid i.name) = cache (cacheKey rid i.name) := by
        match hin : j.inOctets, hout : j.outOctets with
        | some a, some b => simp [cacheSet, hkey]
        | some _, none => rfl
        | none, some _ => rfl
        | none, none => rfl
      rw [ih _ hndr i hir, hstep]

/-- A concrete cache used by the C10 witness: one pre-existing entry. -/
def demoCache : Cache :=
  fun k => if k = ("r:b") then some ⟨1, 2, 0⟩ else none

/-- C10 witness: a two-interface cycle where only the first read both
counters; the first key is overwritten, the second keeps its old entry, and
an unrelated key is untouched. -/
theorem updateSampleCache_spec_witness :
    (updateSampleCache ("r") 5 demoCache
        [⟨"a", some 10, some 20⟩, ⟨"b", none, some 3⟩]) ("r:a") = some ⟨10, 20, 5⟩ ∧
    (updateSampleCache ("r") 5 demoCache
        [⟨"a", some 10, some 20⟩, ⟨"b", none, some 3⟩]) ("r:b") = some ⟨1, 2, 0⟩ ∧
    (updateSampleCache ("r") 5 demoCache
        [⟨"a", some 10, some 20⟩, ⟨"b", none, some 3⟩]) ("x") = demoCache ("x") := by
  have h := updateSampleCache_spec ("r") 5 demoCache
    [⟨"a", some 10, some 20⟩, ⟨"b", none, some 3⟩] (by decide)
  refine ⟨?_, ?_, ?_⟩
  · exact h.1 ⟨"a", some 10, some 20⟩ (by decide)
  · exact h.1 ⟨"b", none, some 3⟩ (by decide)
  · exact h.2.1 ("x") (by decide)

/-- Observable outcome of one `pollLoop` iteration (backend.ts lines
918-937): the value of `latestMetrics` afterwards, what was broadcast, and
the delay handed to `setTimeout` in the `finally` block. -/
structure CycleOutcome (α : Type) where
  latest : Option α
  broadcasted : Option α
  rescheduleDelay : Option ℚ
deriving DecidableEq, Repr

/-- One iteration of `pollLoop`: the body either produces a payload (the
`try` branch publishes and broadcasts it) or throws (the `catch` branch
only logs); the `finally` branch always schedules the next iteration after
`pollIntervalMs`. -/
def pollCycle {α : Type} (latest : Option α) (pollIntervalMs : ℚ)
    (result : Except String α) : CycleOutcome α :=
  match result with
  | .ok payload => ⟨some payload, some payload, some pollIntervalMs⟩
  | .error _ => ⟨latest, none, some pollIntervalMs⟩

/-- The `/api/metrics` handler serves exactly `latestMetrics` (backend.ts
lines 878-884; 204 with no body when it is still null). -/
def apiMetricsResponse {α : Type} (latest : Option α) : Option α :=
  latest

/-- `latestMetrics` after a sequence of poll cycles. -/
def runCycles {α : Type} (pollIntervalMs : ℚ) (latest : Option α) :
    List (Except String α) → Option α
  | [] => latest
  | r :: rest => runCycles pollIntervalMs (pollCycle latest pollIntervalMs r).latest rest

/-- C9: when a whole poll cycle throws, `latestMetrics` is unchanged and
`/api/metrics` keeps serving the previous snapshot; the loop reschedules
after the normal configured interval in every case (success or failure),
and any sequence of failing cycles leaves the published snapshot intact —
a failed cycle never terminates the loop. -/
theorem pollCycle_spec :
    ∀ (α : Type) (latest : Option α) (pollIntervalMs : ℚ) (msg : String),
      (pollCycle latest pollIntervalMs (.error msg)).latest = latest ∧
      apiMetricsResponse (pollCycle latest pollIntervalMs (.error msg)).latest =
        apiMetricsResponse latest ∧
      (∀ result, (pollCycle latest pollIntervalMs result).rescheduleDelay =
        some pollIntervalMs) ∧
      (∀ msgs : List String,
        runCycles pollIntervalMs latest (msgs.map (fun m => .error m)) = latest) := by
  intro α latest pollIntervalMs msg
  refine ⟨rfl, rfl, ?_, ?_⟩
  · intro result
    cases result with
    | ok payload => rfl
    | error e => rfl
  · intro msgs
    induction msgs generalizing latest with
    | nil => rfl
    | cons m rest ih => exact ih latest

/-- A 2-D point (shared/types.ts `Position`). -/
structure Position where
  x : ℚ
  y : ℚ
deriving DecidableEq, Repr

/-- Result of `splitPathAtHalf` (shared/path-utils.ts). -/
structure SplitPathResult where
  midpoint : Position
  firstHalf : List Position
  secondHalf : List Position
deriving DecidableEq, Repr

/-- The interpolation used to place the split point on a segment
(path-utils.ts lines 53-56): start + (end − start) · t, per coordinate. -/
def lerp (s e : Position) (t : ℚ) : Position :=
  ⟨s.x + (e.x - s.x) * t, s.y + (e.y - s.y) * t⟩

/-- Total polyline length: the sum of `len` over consecutive vertex pairs.
`len` abstracts `Math.hypot` applied to the coordinate differences, i.e.
the Euclidean length of one segment (path-utils.ts lines 25-31). -/
def pathLength (len : Position → Position → ℚ) : List Position → ℚ
  | a :: b :: rest => len a b + pathLength len (b :: rest)
  | _ => 0

/-- The scanning loop of `splitPathAtHalf` (path-utils.ts lines 45-74):
walks segments accumulating length until the half-length is reached,
interpolating the split point on the deciding segment; `pre` holds the
vertices already passed, matching `path.slice(0, i + 1)`. -/
def splitGo (len : Position → Position → ℚ) (halfway : ℚ) :
    List Position → List Position → ℚ → SplitPathResult
  | start :: next :: rest, pre, accumulated =>
    let length := len start next
    if halfway ≤ accumulated + length then
      let remaining := halfway - accumulated
      let frac := if length = 0 then 0 else remaining / length
      let mid := lerp start next frac
      ⟨mid, pre ++ [start, mid], mid :: next :: rest⟩
    else
      splitGo len halfway (next :: rest) (pre ++ [start]) (accumulated + length)
  | [p], pre, _ => ⟨p, pre ++ [p], [p]⟩
  | [], pre, _ => ⟨⟨0, 0⟩, pre, []⟩

/-- shared/path-utils.ts `splitPathAtHalf`, parameterized over the segment
length function (the source's `Math.hypot`). -/
def splitPathAtHalf (len : Position → Position → ℚ) (path : List Position) :
    SplitPathResult :=
  match path with
  | [] => ⟨⟨0, 0⟩, [⟨0, 0⟩], [⟨0, 0⟩]⟩
  | [p] => ⟨p, [p], [p]⟩
  | p :: q :: rest =>
    let totalLength := pathLength len (p :: q :: rest)
    if totalLength = 0 then
      let mid := (p :: q :: rest).getD ((p :: q :: rest).length / 2) ⟨0, 0⟩
      ⟨mid, [p, mid], [mid, (p :: q :: rest).getLastD ⟨0, 0⟩]⟩
    else
      splitGo len (totalLength / 2) (p :: q :: rest) [] 0

lemma pathLength_cons_cons (len : Position → Position → ℚ) (a b : Position)
    (l : List Position) :
    pathLength len (a :: b :: l) = len a b + pathLength len (b :: l) := rfl

lemma splitGo_spec (len : Position → Position → ℚ)
    (hhom : ∀ s e t, 0 ≤ t → t ≤ 1 → len s (lerp s e t) = t * len s e)
    (halfway : ℚ) :
    ∀ (cur pre : List Position) (accumulated : ℚ),
      2 ≤ cur.length →
      accumulated < halfway →
      halfway ≤ accumulated + pathLength len cur →
      ∃ k, 1 ≤ k ∧ k < cur.length ∧
        (splitGo len halfway cur pre accumulated).firstHalf
          = pre ++ cur.take k ++ [(splitGo len halfway cur pre accumulated).midpoint] ∧
        (splitGo len halfway cur pre accumulated).secondHalf
          = (splitGo len halfway cur pre accumulated).midpoint :: cur.drop k ∧
        pathLength len (cur.take k ++ [(splitGo len halfway cur pre accumulated).midpoint])
          = halfway - accumulated := by
  intro cur
  induction cur with
  | nil =>
    intro pre accumulated h2
    simp at h2
  | cons start tail ih =>
    cases tail with
    | nil =>
      intro pre accumulated h2
      simp at h2
    | cons next rest =>
      intro pre accumulated _ hlt hle
      by_cases hsplit : halfway ≤ accumulated + len start next
      · have hrem : 0 < halfway - accumulated := sub_pos.mpr hlt
        have hlen : halfway - accumulated ≤ len start next := by linarith
        have hlenpos : 0 < len start next := lt_of_lt_of_le hrem hlen
        have hlenne : ¬ len start next = 0 := ne_of_gt hlenpos
        have hfrac0 : 0 ≤ (halfway - accumulated) / len start next :=
          le_of_lt (div_pos hrem hlenpos)
        have hfrac1 : (halfway - accumulated) / len start next ≤ 1 :=
          (div_le_one hlenpos).mpr hlen
        refine ⟨1, le_refl 1, by simp only [List.length_cons]; omega, ?_, ?_, ?_⟩
        · simp only [splitGo]
          rw [if_pos hsplit]
          simp [List.append_assoc]
        · simp only [splitGo]
          rw [if_pos hsplit]
          simp
        · simp only [splitGo]
          rw [if_pos hsplit]
          simp only [List.take_succ_cons, List.take_zero, List.cons_append,
            List.nil_append]
          rw [pathLength_cons_cons, if_neg hlenne]
          rw [hhom start next ((halfway - accumulated) / len start next) hfrac0 hfrac1]
          show (halfway - accumulated) / len start next * len start next +
            pathLength len [_] = halfway - accumulated
          rw [show pathLength len [lerp start next
            ((halfway - accumulated) / len start next)] = 0 from rfl]
          field_simp
      · cases rest with
        | nil =>
          exfalso
          rw [pathLength_cons_cons] at hle
          rw [show pathLength len [next] = 0 from rfl] at hle
          exact hsplit (by linarith)
        | cons c cs =>
          have hlt' : accumulated + len start next < halfway := not_le.mp hsplit
          have hle' : halfway ≤ (accumulated + len start next) +
              pathLength len (next :: c :: cs) := by
            rw [pathLength_cons_cons] at hle
            linarith
          obtain ⟨k', hk1, hk2, hf, hs, hp⟩ :=
            ih (pre ++ [start]) (accumulated + len start next)
              (by simp only [List.length_cons]; omega) hlt' hle'
          obtain ⟨k'', rfl⟩ : ∃ k'', k' = k'' + 1 := ⟨k' - 1, by omega⟩
          have hgo : splitGo len halfway (start :: next :: c :: cs) pre accumulated =
              splitGo len halfway (next :: c :: cs) (pre ++ [start])
                (accumulated + len start next) := by
            simp only [splitGo]
            rw [if_neg hsplit]
          refine ⟨k'' + 1 + 1, by omega,
            by simp only [List.length_cons] at hk2 ⊢; omega, ?_, ?_, ?_⟩
          · rw [hgo, hf]
            simp [List.take_succ_cons, List.append_assoc]
          · rw [hgo, hs]
            simp [List.drop_succ_cons]
          · rw [hgo]
            simp only [List.take_succ_cons, List.cons_append] at hp ⊢
            rw [pathLength_cons_cons, hp]
            ring

/-- C3: `splitPathAtHalf` on a polyline of at least two vertices with
positive total length returns a split at some segment index: the first
half is the vertex prefix up to the split segment's start followed by the
midpoint, the second half is the midpoint followed by the remaining
vertices, and the cumulative length of the first half is exactly half the
total length; a 0- or 1-point path yields a single point as midpoint and
both halves; a degenerate multi-point path of total length 0 yields the
structural middle vertex, with the halves running from the first vertex to
it and from it to the last vertex. `len` is the Euclidean segment length
(`Math.hypot`), of which the proof uses only homogeneity along a segment. -/
theorem splitPathAtHalf_spec :
    ∀ (len : Position → Position → ℚ),
      (∀ s e t, 0 ≤ t → t ≤ 1 → len s (lerp s e t) = t * len s e) →
      (splitPathAtHalf len [] = ⟨⟨0, 0⟩, [⟨0, 0⟩], [⟨0, 0⟩]⟩) ∧
      (∀ p, splitPathAtHalf len [p] = ⟨p, [p], [p]⟩) ∧
      (∀ path, 2 ≤ path.length → pathLength len path = 0 →
        splitPathAtHalf len path =
          ⟨path.getD (path.length / 2) ⟨0, 0⟩,
           [path.headD ⟨0, 0⟩, path.getD (path.length / 2) ⟨0, 0⟩],
           [path.getD (path.length / 2) ⟨0, 0⟩, path.getLastD ⟨0, 0⟩]⟩) ∧
      (∀ path, 2 ≤ path.length → 0 < pathLength len path →
        ∃ k, 1 ≤ k ∧ k < path.length ∧
          (splitPathAtHalf len path).firstHalf
            = path.take k ++ [(splitPathAtHalf len path).midpoint] ∧
          (splitPathAtHalf len path).secondHalf
            = (splitPathAtHalf len path).midpoint :: path.drop k ∧
          pathLength len ((splitPathAtHalf len path).firstHalf)
            = pathLength len path / 2) := by
  intro len hhom
  refine ⟨rfl, fun p => rfl, ?_, ?_⟩
  · intro path h2 h0
    match path with
    | p :: q :: rest =>
      simp only [splitPathAtHalf]
      rw [if_pos h0]
      rfl
  · intro path h2 hpos
    match path with
    | p :: q :: rest =>
      have hne : ¬ pathLength len (p :: q :: rest) = 0 := ne_of_gt hpos
      have hdef : splitPathAtHalf len (p :: q :: rest) =
          splitGo len (pathLength len (p :: q :: rest) / 2) (p :: q :: rest) [] 0 := by
        simp only [splitPathAtHalf]
        rw [if_neg hne]
      obtain ⟨k, hk1, hk2, hf, hs, hp⟩ :=
        splitGo_spec len hhom (pathLength len (p :: q :: rest) / 2)
          (p :: q :: rest) [] 0
          (by simp only [List.length_cons]; omega)
          (by linarith)
          (by linarith)
      refine ⟨k, hk1, hk2, ?_, ?_, ?_⟩
      · rw [hdef]
        simpa using hf
      · rw [hdef]
        exact hs
      · rw [hdef]
        have hf' : (splitGo len (pathLength len (p :: q :: rest) / 2)
            (p :: q :: rest) [] 0).firstHalf
            = (p :: q :: rest).take k ++
              [(splitGo len (pathLength len (p :: q :: rest) / 2)
                (p :: q :: rest) [] 0).midpoint] := by simpa using hf
        rw [hf']
        rw [hp]
        ring

/-- The taxicab segment length, used only to witness the abstract length
parameter: like the Euclidean length it is homogeneous along a segment. -/
def l1len (a b : Position) : ℚ :=
  |b.x - a.x| + |b.y - a.y|

lemma l1len_hom : ∀ (s e : Position) (t : ℚ), 0 ≤ t → t ≤ 1 →
    l1len s (lerp s e t) = t * l1len s e := by
  intro s e t ht _
  simp only [l1len, lerp]
  rw [show s.x + (e.x - s.x) * t - s.x = (e.x - s.x) * t by ring,
    show s.y + (e.y - s.y) * t - s.y = (e.y - s.y) * t by ring,
    abs_mul, abs_mul, abs_of_nonneg ht]
  ring

/-- C3 witness: splitting the 3-point path (0,0)/(2,0)/(6,0) of length 6
yields the split on the second segment, first half of length exactly 3. -/
theorem splitPathAtHalf_spec_witness :
    ∃ k, 1 ≤ k ∧ k < 3 ∧
      (splitPathAtHalf l1len [⟨0, 0⟩, ⟨2, 0⟩, ⟨6, 0⟩]).firstHalf
        = ([⟨0, 0⟩, ⟨2, 0⟩, ⟨6, 0⟩] : List Position).take k ++
          [(splitPathAtHalf l1len [⟨0, 0⟩, ⟨2, 0⟩, ⟨6, 0⟩]).midpoint] ∧
      (splitPathAtHalf l1len [⟨0, 0⟩, ⟨2, 0⟩, ⟨6, 0⟩]).secondHalf
        = (splitPathAtHalf l1len [⟨0, 0⟩, ⟨2, 0⟩, ⟨6, 0⟩]).midpoint ::
          ([⟨0, 0⟩, ⟨2, 0⟩, ⟨6, 0⟩] : List Position).drop k ∧
      pathLength l1len ((splitPathAtHalf l1len [⟨0, 0⟩, ⟨2, 0⟩, ⟨6, 0⟩]).firstHalf)
        = 3 := by
  have h := (splitPathAtHalf_spec l1len l1len_hom).2.2.2
    [⟨0, 0⟩, ⟨2, 0⟩, ⟨6, 0⟩] (by simp) (by norm_num [pathLength, l1len])
  obtain ⟨k, hk1, hk2, hf, hs, hp⟩ := h
  refine ⟨k, hk1, by simpa using hk2, hf, hs, ?_⟩
  rw [hp]
  norm_num [pathLength, l1len]

/-- map-renderer.ts `computeAutoPath` (identical in frontend/main.ts),
parameterized over `norm`, the source's `Math.hypot` on the coordinate
deltas; `Math.hypot(dx, dy) || 1` becomes the if on `norm dx dy = 0`. -/
def computeAutoPath (norm : ℚ → ℚ → ℚ) (p q : Position)
    (groupSize index : ℕ) : List Position :=
  let dx := q.x - p.x
  let dy := q.y - p.y
  let length := if norm dx dy = 0 then 1 else norm dx dy
  let midpoint : Position := ⟨p.x + dx / 2, p.y + dy / 2⟩
  let normalizedPerp : Position := ⟨-dy / length, dx / length⟩
  let spacing := min 160 (max 40 (length / 3))
  let offset := ((index : ℚ) - ((groupSize : ℚ) - 1) / 2) * spacing
  let control : Position := ⟨midpoint.x + normalizedPerp.x * offset,
    midpoint.y + normalizedPerp.y * offset⟩
  if groupSize = 1 ∨ |offset| < 1 then [p, q] else [p, control, q]

/-- The claim's spacing: clamp(distance(from, to) / 3, 40, 160). -/
def autoSpacing (norm : ℚ → ℚ → ℚ) (p q : Position) : ℚ :=
  min 160 (max 40 (norm (q.x - p.x) (q.y - p.y) / 3))

/-- The claim's offset: (index − (groupSize − 1) / 2) · spacing. -/
def autoOffset (norm : ℚ → ℚ → ℚ) (p q : Position) (groupSize index : ℕ) : ℚ :=
  ((index : ℚ) - ((groupSize : ℚ) - 1) / 2) * autoSpacing norm p q

/-- The claim's control point: the midpoint of the endpoints plus the
(normalized) perpendicular times the offset. -/
def autoControl (norm : ℚ → ℚ → ℚ) (p q : Position) (groupSize index : ℕ) :
    Position :=
  let dx := q.x - p.x
  let dy := q.y - p.y
  let length := if norm dx dy = 0 then 1 else norm dx dy
  ⟨(p.x + q.x) / 2 + (-dy / length) * autoOffset norm p q groupSize index,
   (p.y + q.y) / 2 + (dx / length) * autoOffset norm p q groupSize index⟩

lemma autoSpacing_eq (norm : ℚ → ℚ → ℚ) (p q : Position) :
    autoSpacing norm p q =
      min 160 (max 40 ((if norm (q.x - p.x) (q.y - p.y) = 0 then 1
        else norm (q.x - p.x) (q.y - p.y)) / 3)) := by
  by_cases h : norm (q.x - p.x) (q.y - p.y) = 0
  · simp only [autoSpacing, h, if_pos]
    norm_num
  · simp only [autoSpacing, if_neg h]

/-- C4: `computeAutoPath` uses spacing clamp(distance/3, 40, 160) and
offset (index − (groupSize − 1)/2) · spacing; groupSize 1 or |offset| < 1
gives the straight 2-point path [from, to], otherwise the 3-point path
[from, control, to] with control = midpoint + perpendicular · offset; for
groupSize 3 the offsets at indices 0, 1, 2 are −spacing, 0, +spacing. -/
theorem computeAutoPath_spec :
    ∀ (norm : ℚ → ℚ → ℚ) (p q : Position) (groupSize index : ℕ),
      computeAutoPath norm p q groupSize index =
        (if groupSize = 1 ∨ |autoOffset norm p q groupSize index| < 1
          then [p, q]
          else [p, autoControl norm p q groupSize index, q]) ∧
      autoOffset norm p q 3 0 = -autoSpacing norm p q ∧
      autoOffset norm p q 3 1 = 0 ∧
      autoOffset norm p q 3 2 = autoSpacing norm p q := by
  intro norm p q groupSize index
  have hoff : ((index : ℚ) - ((groupSize : ℚ) - 1) / 2) *
      min 160 (max 40 ((if norm (q.x - p.x) (q.y - p.y) = 0 then 1
        else norm (q.x - p.x) (q.y - p.y)) / 3)) =
      autoOffset norm p q groupSize index := by
    rw [autoOffset, autoSpacing_eq]
  refine ⟨?_, ?_, ?_, ?_⟩
  · simp only [computeAutoPath]
    rw [hoff]
    by_cases hcond : groupSize = 1 ∨ |autoOffset norm p q groupSize index| < 1
    · rw [if_pos hcond, if_pos hcond]
    · rw [if_neg hcond, if_neg hcond]
      simp only [autoControl, List.cons.injEq, Position.mk.injEq, and_true, true_and]
      constructor <;> ring
  · simp only [autoOffset]
    push_cast
    ring
  · simp only [autoOffset]
    push_cast
    ring
  · simp only [autoOffset]
    push_cast
    ring

/-- A utilization→color bucket (map-renderer.ts `UTILIZATION_BUCKETS`). -/
structure Bucket where
  min : ℚ
  max : ℚ
  color : String
deriving DecidableEq, Repr

/-- The 8 utilization buckets (identical in map-renderer.ts lines 20-29 and
frontend/main.ts lines 102-111). -/
def UTILIZATION_BUCKETS : List Bucket :=
  [⟨0, 0.01, "#0ea5e9"⟩,
   ⟨0.01, 0.2, "#22c55e"⟩,
   ⟨0.2, 0.4, "#84cc16"⟩,
   ⟨0.4, 0.6, "#facc15"⟩,
   ⟨0.6, 0.8, "#f97316"⟩,
   ⟨0.8, 0.9, "#ea580c"⟩,
   ⟨0.9, 0.99, "#ef4444"⟩,
   ⟨0.99, 1.01, "#991b1b"⟩]

/-- map-renderer.ts `utilToColor` (lines 156-164): null/NaN give the
neutral color, otherwise the first bucket with min ≤ u < max, falling back
to the LAST bucket when none matches. -/
def utilToColor (utilization : Option ℚ) : String :=
  match utilization with
  | none => "#5a646d"
  | some u =>
    match UTILIZATION_BUCKETS.find? (fun b => decide (b.min ≤ u ∧ u < b.max)) with
    | some b => b.color
    | none => (UTILIZATION_BUCKETS.getLastD ⟨0, 0, "#5a646d"⟩).color

lemma find?_bucket_none (u : ℚ) :
    ∀ (bs : List Bucket), (∀ c ∈ bs, ¬(c.min ≤ u ∧ u < c.max)) →
      bs.find? (fun c => decide (c.min ≤ u ∧ u < c.max)) = none := by
  intro bs
  induction bs with
  | nil => intro _; rfl
  | cons b rest ih =>
    intro h
    rw [List.find?_cons_of_neg _ (by simpa using h b (List.mem_cons_self b rest))]
    exact ih (fun c hc => h c (List.mem_cons_of_mem b hc))

lemma find?_bucket_pos (u : ℚ) (b : Bucket) :
    ∀ (pre rest : List Bucket),
      (∀ c ∈ pre, ¬(c.min ≤ u ∧ u < c.max)) → b.min ≤ u → u < b.max →
      (pre ++ b :: rest).find? (fun c => decide (c.min ≤ u ∧ u < c.max)) = some b := by
  intro pre
  induction pre with
  | nil =>
    intro rest _ h1 h2
    exact List.find?_cons_of_pos _ (by simp [h1, h2])
  | cons c cs ih =>
    intro rest h h1 h2
    rw [List.cons_append,
      List.find?_cons_of_neg _ (by simpa using h c (List.mem_cons_self c cs))]
    exact ih rest (fun d hd => h d (List.mem_cons_of_mem c hd)) h1 h2

lemma utilToColor_eval_some (u : ℚ) (b : Bucket)
    (hf : UTILIZATION_BUCKETS.find? (fun c => decide (c.min ≤ u ∧ u < c.max)) = some b) :
    utilToColor (some u) = b.color := by
  simp only [utilToColor, hf]

lemma utilToColor_eval_none (u : ℚ)
    (hf : UTILIZATION_BUCKETS.find? (fun c => decide (c.min ≤ u ∧ u < c.max)) = none) :
    utilToColor (some u) = "#991b1b" := by
  simp only [utilToColor, hf]
  rfl

/-- C6 counterexample: the out-of-range utilization 2.0 falls in no bucket
and the source maps it to the last bucket's deep red, not to the neutral
unknown color, refuting the claim that every out-of-range input is neutral. -/
theorem utilToColor_counterexample :
    utilToColor (some 2) = "#991b1b" ∧ utilToColor (some 2) ≠ "#5a646d" := by
  have h : utilToColor (some 2) = "#991b1b" := by
    refine utilToColor_eval_none 2 (find?_bucket_none 2 _ ?_)
    intro c hc
    fin_cases hc <;> simp only [not_and, not_lt] <;> intro _ <;> norm_num
  refine ⟨h, ?_⟩
  rw [h]
  decide

/-- The amended per-number mapping: each bucket is half-open [min, max),
and a number in no bucket (negative, or ≥ 1.01) falls back to the last
bucket's color. -/
def bucketColorSpec (u : ℚ) : String :=
  if u < 0 then "#991b1b"
  else if u < 0.01 then "#0ea5e9"
  else if u < 0.2 then "#22c55e"
  else if u < 0.4 then "#84cc16"
  else if u < 0.6 then "#facc15"
  else if u < 0.8 then "#f97316"
  else if u < 0.9 then "#ea580c"
  else if u < 0.99 then "#ef4444"
  else "#991b1b"

/-- C6 (amended): the mapping has exactly 8 buckets with boundaries 0,
0.01, 0.2, 0.4, 0.6, 0.8, 0.9, 0.99, 1.01, each half-open [min, max); a
null/absent utilization maps to the neutral unknown color, while a numeric
input in no bucket (below 0 or at/above 1.01 — and in particular everything
from 0.99 up through just over 1.0) maps to the last bucket's color. -/
theorem utilToColor_amended :
    utilToColor none = "#5a646d" ∧
    UTILIZATION_BUCKETS.length = 8 ∧
    UTILIZATION_BUCKETS.map (fun b => b.min) =
      [0, 0.01, 0.2, 0.4, 0.6, 0.8, 0.9, 0.99] ∧
    UTILIZATION_BUCKETS.map (fun b => b.max) =
      [0.01, 0.2, 0.4, 0.6, 0.8, 0.9, 0.99, 1.01] ∧
    (∀ u : ℚ, utilToColor (some u) = bucketColorSpec u) := by
  refine ⟨rfl, rfl, rfl, rfl, ?_⟩
  intro u
  rcases lt_or_le u 0 with h0 | hA
  · rw [utilToColor_eval_none u (find?_bucket_none u _ (by
      intro c hc
      fin_cases hc <;> simp only [not_and, not_lt] <;> intro _ <;> linarith))]
    simp only [bucketColorSpec]
    rw [if_pos h0]
  rcases lt_or_le u 0.01 with h1 | hB
  · rw [utilToColor_eval_some u _ (find?_bucket_pos u ⟨0, 0.01, "#0ea5e9"⟩
      ([] : List Bucket) _ (by intro c hc; exact absurd hc (List.not_mem_nil c)) hA h1)]
    simp only [bucketColorSpec]
    rw [if_neg (not_lt.mpr hA), if_pos h1]
  rcases lt_or_le u 0.2 with h2 | hC
  · rw [utilToColor_eval_some u _ (find?_bucket_pos u ⟨0.01, 0.2, "#22c55e"⟩
      [⟨0, 0.01, "#0ea5e9"⟩] _ (by
        intro c hc
        fin_cases hc <;> simp only [not_and, not_lt] <;> intro _ <;> linarith) hB h2)]
    simp only [bucketColorSpec]
    rw [if_neg (not_lt.mpr hA), if_neg (not_lt.mpr hB), if_pos h2]
  rcases lt_or_le u 0.4 with h3 | hD
  · rw [utilToColor_eval_some u _ (find?_bucket_pos u ⟨0.2, 0.4, "#84cc16"⟩
      [⟨0, 0.01, "#0ea5e9"⟩, ⟨0.01, 0.2, "#22c55e"⟩] _ (by
        intro c hc
        fin_cases hc <;> simp only [not_and, not_lt] <;> intro _ <;> linarith) hC h3)]
    simp only [bucketColorSpec]
    rw [if_neg (not_lt.mpr hA), if_neg (not_lt.mpr hB), if_neg (not_lt.mpr hC),
      if_pos h3]
  rcases lt_or_le u 0.6 with h4 | hE
  · rw [utilToColor_eval_some u _ (find?_bucket_pos u ⟨0.4, 0.6, "#facc15"⟩
      [⟨0, 0.01, "#0ea5e9"⟩, ⟨0.01, 0.2, "#22c55e"⟩, ⟨0.2, 0.4, "#84cc16"⟩] _ (by
        intro c hc
        fin_cases hc <;> simp only [not_and, not_lt] <;> intro _ <;> linarith) hD h4)]
    simp only [bucketColorSpec]
    rw [if_neg (not_lt.mpr hA), if_neg (not_lt.mpr hB), if_neg (not_lt.mpr hC),
      if_neg (not_lt.mpr hD), if_pos h4]
  rcases lt_or_le u 0.8 with h5 | hF
  · rw [utilToColor_eval_some u _ (find?_bucket_pos u ⟨0.6, 0.8, "#f97316"⟩
      [⟨0, 0.01, "#0ea5e9"⟩, ⟨0.01, 0.2, "#22c55e"⟩, ⟨0.2, 0.4, "#84cc16"⟩,
       ⟨0.4, 0.6, "#facc15"⟩] _ (by
        intro c hc
        fin_cases hc <;> simp only [not_and, not_lt] <;> intro _ <;> linarith) hE h5)]
    simp only [bucketColorSpec]
    rw [if_neg (not_lt.mpr hA), if_neg (not_lt.mpr hB), if_neg (not_lt.mpr hC),
      if_neg (not_lt.mpr hD), if_neg (not_lt.mpr hE), if_pos h5]
  rcases lt_or_le u 0.9 with h6 | hG
  · rw [utilToColor_eval_some u _ (find?_bucket_pos u ⟨0.8, 0.9, "#ea580c"⟩
      [⟨0, 0.01, "#0ea5e9"⟩, ⟨0.01, 0.2, "#22c55e"⟩, ⟨0.2, 0.4, "#84cc16"⟩,
       ⟨0.4, 0.6, "#facc15"⟩, ⟨0.6, 0.8, "#f97316"⟩] _ (by
        intro c hc
        fin_cases hc <;> simp only [not_and, not_lt] <;> intro _ <;> linarith) hF h6)]
    simp only [bucketColorSpec]
    rw [if_neg (not_lt.mpr hA), if_neg (not_lt.mpr hB), if_neg (not_lt.mpr hC),
      if_neg (not_lt.mpr hD), if_neg (not_lt.mpr hE), if_neg (not_lt.mpr hF),
      if_pos h6]
  rcases lt_or_le u 0.99 with h7 | hH
  · rw [utilToColor_eval_some u _ (find?_bucket_pos u ⟨0.9, 0.99, "#ef4444"⟩
      [⟨0, 0.01, "#0ea5e9"⟩, ⟨0.01, 0.2, "#22c55e"⟩, ⟨0.2, 0.4, "#84cc16"⟩,
       ⟨0.4, 0.6, "#facc15"⟩, ⟨0.6, 0.8, "#f97316"⟩, ⟨0.8, 0.9, "#ea580c"⟩] _ (by
        intro c hc
        fin_cases hc <;> simp only [not_and, not_lt] <;> intro _ <;> linarith) hG h7)]
    simp only [bucketColorSpec]
    rw [if_neg (not_lt.mpr hA), if_neg (not_lt.mpr hB), if_neg (not_lt.mpr hC),
      if_neg (not_lt.mpr hD), if_neg (not_lt.mpr hE), if_neg (not_lt.mpr hF),
      if_neg (not_lt.mpr hG), if_pos h7]
  rcases lt_or_le u 1.01 with h8 | hI
  · rw [utilToColor_eval_some u _ (find?_bucket_pos u ⟨0.99, 1.01, "#991b1b"⟩
      [⟨0, 0.01, "#0ea5e9"⟩, ⟨0.01, 0.2, "#22c55e"⟩, ⟨0.2, 0.4, "#84cc16"⟩,
       ⟨0.4, 0.6, "#facc15"⟩, ⟨0.6, 0.8, "#f97316"⟩, ⟨0.8, 0.9, "#ea580c"⟩,
       ⟨0.9, 0.99, "#ef4444"⟩] _ (by
        intro c hc
        fin_cases hc <;> simp only [not_and, not_lt] <;> intro _ <;> linarith) hH h8)]
    simp only [bucketColorSpec]
    rw [if_neg (not_lt.mpr hA), if_neg (not_lt.mpr hB), if_neg (not_lt.mpr hC),
      if_neg (not_lt.mpr hD), if_neg (not_lt.mpr hE), if_neg (not_lt.mpr hF),
      if_neg (not_lt.mpr hG), if_neg (not_lt.mpr hH)]
  · rw [utilToColor_eval_none u (find?_bucket_none u _ (by
      intro c hc
      fin_cases hc <;> simp only [not_and, not_lt] <;> intro _ <;> linarith))]
    simp only [bucketColorSpec]
    rw [if_neg (not_lt.mpr hA), if_neg (not_lt.mpr hB), if_neg (not_lt.mpr hC),
      if_neg (not_lt.mpr hD), if_neg (not_lt.mpr hE), if_neg (not_lt.mpr hF),
      if_neg (not_lt.mpr hG), if_neg (not_lt.mpr hH)]

/-- map-renderer.ts `capacityToWidth` (lines 177-193; frontend/main.ts
reads the range from module state but is otherwise identical). `log`
abstracts `Math.log`; JS truthiness makes a capacity of exactly 0 fall
into the `!capacity` branch. -/
def capacityToWidth (log : ℚ → ℚ) (capacity : Option ℚ)
    (range : Option (ℚ × ℚ)) : ℚ :=
  match capacity, range with
  | none, _ => 2
  | some _, none => 2
  | some c, some r =>
    if c = 0 then 2
    else if c ≤ 0 ∨ r.1 ≤ 0 then 2
    else if r.2 = r.1 then (2 + 14) / 2
    else
      let t := min 1 (max 0 ((log c - log r.1) / (log r.2 - log r.1)))
      2 + (14 - 2) * t

/-- C7: over any observed range with positive minimum, `capacityToWidth`
is 2 at the range minimum and 14 at the range maximum, and is monotone in
the capacity inside the range (log-linear interpolation); a missing
capacity, a missing range or a non-positive range minimum give 2, and a
collapsed range gives the midpoint width 8. `log` abstracts `Math.log`,
assumed strictly monotone on the positives. -/
theorem capacityToWidth_spec :
    ∀ (log : ℚ → ℚ), StrictMonoOn log (Set.Ioi (0 : ℚ)) →
    ∀ (mn mx : ℚ), 0 < mn →
      (mn < mx →
        capacityToWidth log (some mn) (some (mn, mx)) = 2 ∧
        capacityToWidth log (some mx) (some (mn, mx)) = 14 ∧
        (∀ c1 c2, mn ≤ c1 → c1 ≤ c2 → c2 ≤ mx →
          capacityToWidth log (some c1) (some (mn, mx)) ≤
            capacityToWidth log (some c2) (some (mn, mx)))) ∧
      (∀ c, 0 < c → mx = mn →
        capacityToWidth log (some c) (some (mn, mx)) = 8) ∧
      (∀ cap, capacityToWidth log cap none = 2) ∧
      (∀ r, capacityToWidth log none (some r) = 2) ∧
      (∀ c r, r.1 ≤ 0 → capacityToWidth log (some c) (some r) = 2) := by
  intro log hlog mn mx hmn
  have hmem : ∀ x : ℚ, 0 < x → x ∈ Set.Ioi (0 : ℚ) := fun x hx => hx
  refine ⟨?_, ?_, ?_, ?_, ?_⟩
  · intro hlt
    have hmx : 0 < mx := lt_trans hmn hlt
    have hlogs : log mn < log mx := hlog (hmem mn hmn) (hmem mx hmx) hlt
    have hdpos : 0 < log mx - log mn := sub_pos.mpr hlogs
    have hwidth : ∀ c : ℚ, 0 < c →
        capacityToWidth log (some c) (some (mn, mx)) =
          2 + 12 * min 1 (max 0 ((log c - log mn) / (log mx - log mn))) := by
      intro c hc
      have hc0 : ¬ c = 0 := ne_of_gt hc
      have hcle : ¬ (c ≤ 0 ∨ mn ≤ 0) := by
        push_neg
        exact ⟨hc, hmn⟩
      have hne : ¬ mx = mn := ne_of_gt hlt
      simp only [capacityToWidth, if_neg hc0, if_neg hcle, if_neg hne]
      norm_num
    refine ⟨?_, ?_, ?_⟩
    · rw [hwidth mn hmn]
      rw [sub_self, zero_div, max_eq_left le_rfl, min_eq_right (by norm_num)]
      norm_num
    · rw [hwidth mx hmx]
      rw [div_self (ne_of_gt hdpos), max_eq_right (by norm_num : (0 : ℚ) ≤ 1),
        min_self]
      norm_num
    · intro c1 c2 hc1 hc12 hc2
      have hc1pos : 0 < c1 := lt_of_lt_of_le hmn hc1
      have hc2pos : 0 < c2 := lt_of_lt_of_le hc1pos hc12
      have hlogle : log c1 ≤ log c2 := by
        rcases eq_or_lt_of_le hc12 with h | h
        · rw [h]
        · exact le_of_lt (hlog (hmem c1 hc1pos) (hmem c2 hc2pos) h)
      rw [hwidth c1 hc1pos, hwidth c2 hc2pos]
      have ht : (log c1 - log mn) / (log mx - log mn) ≤
          (log c2 - log mn) / (log mx - log mn) :=
        (div_le_div_iff_of_pos_right hdpos).mpr (by linarith)
      have hmax : max 0 ((log c1 - log mn) / (log mx - log mn)) ≤
          max 0 ((log c2 - log mn) / (log mx - log mn)) :=
        max_le_max le_rfl ht
      have hmin : min 1 (max 0 ((log c1 - log mn) / (log mx - log mn))) ≤
          min 1 (max 0 ((log c2 - log mn) / (log mx - log mn))) :=
        min_le_min le_rfl hmax
      linarith
  · intro c hc heq
    have hc0 : ¬ c = 0 := ne_of_gt hc
    have hcle : ¬ (c ≤ 0 ∨ mn ≤ 0) := by
      push_neg
      exact ⟨hc, hmn⟩
    simp only [capacityToWidth, if_neg hc0, if_neg hcle, if_pos heq]
    norm_num
  · intro cap
    match cap with
    | none => rfl
    | some c => rfl
  · intro r
    rfl
  · intro c r hr
    by_cases hc0 : c = 0
    · simp only [capacityToWidth, if_pos hc0]
    · have : c ≤ 0 ∨ r.1 ≤ 0 := Or.inr hr
      simp only [capacityToWidth, if_neg hc0, if_pos this]

/-- C7 witness: instantiating the abstract logarithm with the identity
(strictly monotone on the positives) on the range [1, 4]. -/
theorem capacityToWidth_spec_witness :
    capacityToWidth id (some 1) (some (1, 4)) = 2 ∧
    capacityToWidth id (some 4) (some (1, 4)) = 14 ∧
    capacityToWidth id (some 2) (some (2, 2)) = 8 ∧
    capacityToWidth id none none = 2 := by
  have h := capacityToWidth_spec id (fun _ _ _ _ hab => hab) 1 4 (by norm_num)
  have h2 := capacityToWidth_spec id (fun _ _ _ _ hab => hab) 2 2 (by norm_num)
  have hm := h.1 (by norm_num)
  exact ⟨hm.1, hm.2.1, h2.2.1 2 (by norm_num) rfl, h.2.2.1 none⟩

/-- An interface of the topology definition (shared/types.ts
`InterfaceDefinition`); a missing/null `maxBandwidth` is `none`. -/
structure IfaceDef where
  name : String
  maxBandwidth : Option ℚ
deriving DecidableEq, Repr

/-- A router of the topology definition, reduced to the fields the
capacity resolution reads. -/
structure RouterDef where
  id : String
  interfaces : List IfaceDef
deriving DecidableEq, Repr

/-- A link of the topology definition, reduced to the fields the capacity
resolution reads (`from`/`to` renamed to avoid the keyword). -/
structure LinkDef where
  id : String
  fromId : String
  toId : String
  ifaceFrom : String
  ifaceTo : String
deriving DecidableEq, Repr

/-- The topology definition, reduced to routers and links. -/
structure Topo where
  routers : List RouterDef
  links : List LinkDef
deriving DecidableEq, Repr

/-- The capacity-relevant part of one interface's published metrics
(`InterfaceMetrics.maxBandwidth` is always a number). -/
structure IfaceMetricsCap where
  name : String
  maxBandwidth : ℚ
deriving DecidableEq, Repr

/-- The capacity-relevant part of a metrics snapshot: per router id, the
per-interface metrics. -/
structure MetricsCaps where
  routers : List (String × List IfaceMetricsCap)
deriving DecidableEq, Repr

/-- map-renderer.ts `buildRouterMap(...).get(id)`: the router with the
given id (ids are unique per the topology contract). -/
def findRouter (routers : List RouterDef) (rid : String) : Option RouterDef :=
  routers.find? (fun r => decide (r.id = rid))

/-- map-renderer.ts `getInterfaceCapacity` (lines 77-81). -/
def getInterfaceCapacity (router : Option RouterDef) (ifaceName : String) :
    Option ℚ :=
  match router with
  | none => none
  | some r =>
    match r.interfaces.find? (fun c => decide (c.name = ifaceName)) with
    | some iface => iface.maxBandwidth
    | none => none

/-- frontend/main.ts `interfaceDefinitionCapacity` (lines 165-170). -/
def interfaceDefinitionCapacity (topo : Topo) (rid nm : String) : Option ℚ :=
  match topo.routers.find? (fun r => decide (r.id = rid)) with
  | none => none
  | some r =>
    match r.interfaces.find? (fun c => decide (c.name = nm)) with
    | none => none
    | some iface => iface.maxBandwidth

/-- frontend/main.ts `interfaceMetricCapacity` (lines 172-176). -/
def interfaceMetricCapacity (m : MetricsCaps) (rid nm : String) : Option ℚ :=
  match m.routers.find? (fun p => decide (p.1 = rid)) with
  | none => none
  | some p =>
    match p.2.find? (fun i => decide (i.name = nm)) with
    | none => none
    | some i => some i.maxBandwidth

/-- The `.filter(value is number ∧ value > 0)` step on the two candidate
capacities. -/
def posFilter (xs : List (Option ℚ)) : List ℚ :=
  xs.filterMap (fun o =>
    match o with
    | some v => if 0 < v then some v else none
    | none => none)

/-- `Math.min(...candidates)` guarded by non-emptiness. -/
def listMin : List ℚ → Option ℚ
  | [] => none
  | x :: xs => some (xs.foldl min x)

/-- The per-link capacity of the offline renderer
(map-renderer.ts `computeLinkCapacities`, lines 54-75). -/
def linkCapacityMR (topo : Topo) (link : LinkDef) : Option ℚ :=
  listMin (posFilter
    [getInterfaceCapacity (findRouter topo.routers link.fromId) link.ifaceFrom,
     getInterfaceCapacity (findRouter topo.routers link.toId) link.ifaceTo])

/-- The per-link capacity of the interactive front-end
(frontend/main.ts `rebuildLinkCapacities`, lines 178-207): metric
capacities first, topology-definition capacities only as a fallback. -/
def linkCapacityFE (topo : Topo) (m : MetricsCaps) (link : LinkDef) : Option ℚ :=
  let metricCandidates := posFilter
    [interfaceMetricCapacity m link.fromId link.ifaceFrom,
     interfaceMetricCapacity m link.toId link.ifaceTo]
  let candidates :=
    if metricCandidates = [] then
      posFilter
        [interfaceDefinitionCapacity topo link.fromId link.ifaceFrom,
         interfaceDefinitionCapacity topo link.toId link.ifaceTo]
    else metricCandidates
  listMin candidates

/-- The offline renderer's observed capacity list (pushed when the link
capacity is non-null). -/
def capacitiesMR (topo : Topo) : List ℚ :=
  topo.links.filterMap (fun l => linkCapacityMR topo l)

/-- The front-end's observed capacity list (pushed when the link capacity
is truthy, so an exact 0 is also dropped). -/
def capacitiesFE (topo : Topo) (m : MetricsCaps) : List ℚ :=
  topo.links.filterMap (fun l =>
    match linkCapacityFE topo m l with
    | some v => if v = 0 then none else some v
    | none => none)

/-- The observed capacity range min/max, none when no capacities exist. -/
def rangeOf : List ℚ → Option (ℚ × ℚ)
  | [] => none
  | c :: cs => some (cs.foldl min c, cs.foldl max c)

/-- frontend/main.ts `utilToColor` (lines 113-120), duplicated verbatim
from the renderer module. -/
def utilToColorFE (utilization : Option ℚ) : String :=
  match utilization with
  | none => "#5a646d"
  | some u =>
    match UTILIZATION_BUCKETS.find? (fun b => decide (b.min ≤ u ∧ u < b.max)) with
    | some b => b.color
    | none => (UTILIZATION_BUCKETS.getLastD ⟨0, 0, "#5a646d"⟩).color

/-- frontend/main.ts `capacityToWidth` (lines 366-382): identical to the
renderer's except that the range comes from module state, modelled here as
the same explicit argument. -/
def capacityToWidthFE (log : ℚ → ℚ) (capacity : Option ℚ)
    (capacityRange : Option (ℚ × ℚ)) : ℚ :=
  match capacity, capacityRange with
  | none, _ => 2
  | some _, none => 2
  | some c, some r =>
    if c = 0 then 2
    else if c ≤ 0 ∨ r.1 ≤ 0 then 2
    else if r.2 = r.1 then (2 + 14) / 2
    else
      let t := min 1 (max 0 ((log c - log r.1) / (log r.2 - log r.1)))
      2 + (14 - 2) * t

/-- A concrete two-router, one-link topology whose statically configured
interface capacities are 1000. -/
def topoCE : Topo :=
  { routers := [⟨"r1", [⟨"eth0", some 1000⟩]⟩, ⟨"r2", [⟨"eth1", some 1000⟩]⟩],
    links := [⟨"l1", "r1", "r2", "eth0", "eth1"⟩] }

/-- A metrics snapshot for `topoCE` whose published (dynamically probed)
interface capacities are 2000, differing from the configured 1000. -/
def metricsCE : MetricsCaps :=
  { routers := [("r1", [⟨"eth0", 2000⟩]), ("r2", [⟨"eth1", 2000⟩])] }

/-- C5 counterexample: on identical Topology and Snapshot inputs the two
back-ends disagree on the per-link capacity — the front-end takes the
metric-published 2000, the offline renderer the configured 1000 — so their
rendering decisions (capacity, hence stroke width) are not identical. -/
theorem backendCapacity_counterexample :
    linkCapacityFE topoCE metricsCE ⟨"l1", "r1", "r2", "eth0", "eth1"⟩ = some 2000 ∧
    linkCapacityMR topoCE ⟨"l1", "r1", "r2", "eth0", "eth1"⟩ = some 1000 ∧
    linkCapacityFE topoCE metricsCE ⟨"l1", "r1", "r2", "eth0", "eth1"⟩ ≠
      linkCapacityMR topoCE ⟨"l1", "r1", "r2", "eth0", "eth1"⟩ := by
  refine ⟨?_, ?_, ?_⟩ <;> decide

lemma defCap_eq (topo : Topo) (rid nm : String) :
    interfaceDefinitionCapacity topo rid nm =
      getInterfaceCapacity (findRouter topo.routers rid) nm := by
  simp only [interfaceDefinitionCapacity, getInterfaceCapacity, findRouter]
  cases hr : topo.routers.find? (fun r => decide (r.id = rid)) with
  | none => rfl
  | some r =>
    cases hi : r.interfaces.find? (fun c => decide (c.name = nm)) with
    | none => simp [hi]
    | some i => simp [hi]

lemma posFilter_pos (xs : List (Option ℚ)) : ∀ x ∈ posFilter xs, 0 < x := by
  intro x hx
  rcases List.mem_filterMap.mp hx with ⟨a, _, ha⟩
  match a with
  | none => simp at ha
  | some v =>
    dsimp only at ha
    by_cases hv : 0 < v
    · rw [if_pos hv] at ha
      cases ha
      exact hv
    · rw [if_neg hv] at ha
      cases ha

lemma foldl_min_pos : ∀ (xs : List ℚ) (x : ℚ), 0 < x → (∀ y ∈ xs, 0 < y) →
    0 < xs.foldl min x := by
  intro xs
  induction xs with
  | nil => intro x hx _; exact hx
  | cons y ys ih =>
    intro x hx hall
    exact ih (min x y) (lt_min hx (hall y (List.mem_cons_self y ys)))
      (fun z hz => hall z (List.mem_cons_of_mem y hz))

lemma listMin_pos (xs : List ℚ) (v : ℚ) (hall : ∀ x ∈ xs, 0 < x)
    (h : listMin xs = some v) : 0 < v := by
  match xs with
  | [] => cases h
  | x :: rest =>
    have : v = rest.foldl min x := by
      have := h
      simp only [listMin] at this
      exact (Option.some.inj this).symm
    rw [this]
    exact foldl_min_pos rest x (hall x (List.mem_cons_self x rest))
      (fun z hz => hall z (List.mem_cons_of_mem x hz))

lemma linkCapacity_eq (topo : Topo) (m : MetricsCaps)
    (hcap : ∀ rid nm, interfaceMetricCapacity m rid nm =
      interfaceDefinitionCapacity topo rid nm) (link : LinkDef) :
    linkCapacityFE topo m link = linkCapacityMR topo link := by
  simp only [linkCapacityFE, linkCapacityMR, hcap, defCap_eq, ite_self]

/-- C5 (amended): the two back-ends share the utilization→color mapping
and the capacity→width interpolation verbatim, and whenever each
interface's metric-published capacity agrees with its topology-configured
capacity (in particular when no dynamic speed probe overrides it) they
resolve identical per-link capacities, capacity lists and capacity ranges;
they are NOT identical in general, because the front-end prefers the
metric-published capacity while the offline renderer reads only the
topology definition. -/
theorem backendEquivalence_amended :
    (∀ u, utilToColorFE u = utilToColor u) ∧
    (∀ (log : ℚ → ℚ) (cap : Option ℚ) (r : Option (ℚ × ℚ)),
      capacityToWidthFE log cap r = capacityToWidth log cap r) ∧
    (∀ (topo : Topo) (m : MetricsCaps),
      (∀ rid nm, interfaceMetricCapacity m rid nm =
        interfaceDefinitionCapacity topo rid nm) →
      (∀ link, linkCapacityFE topo m link = linkCapacityMR topo link) ∧
      capacitiesFE topo m = capacitiesMR topo ∧
      rangeOf (capacitiesFE topo m) = rangeOf (capacitiesMR topo)) := by
  refine ⟨fun u => rfl, fun log cap r => rfl, ?_⟩
  intro topo m hcap
  have hlinks : ∀ link, linkCapacityFE topo m link = linkCapacityMR topo link :=
    linkCapacity_eq topo m hcap
  have hcaps : capacitiesFE topo m = capacitiesMR topo := by
    simp only [capacitiesFE, capacitiesMR]
    apply List.filterMap_congr
    intro l _
    rw [hlinks l]
    cases hv : linkCapacityMR topo l with
    | none => rfl
    | some v =>
      have hvpos : 0 < v := listMin_pos _ v (posFilter_pos _) hv
      simp only [if_neg (ne_of_gt hvpos)]
  exact ⟨hlinks, hcaps, by rw [hcaps]⟩

/-- A metrics snapshot for `topoCE` that agrees with the configured 1000. -/
def metricsCEok : MetricsCaps :=
  { routers := [("r1", [⟨"eth0", 1000⟩]), ("r2", [⟨"eth1", 1000⟩])] }

lemma capAgreement_ok : ∀ rid nm,
    interfaceMetricCapacity metricsCEok rid nm =
      interfaceDefinitionCapacity topoCE rid nm := by
  intro rid nm
  simp only [interfaceMetricCapacity, interfaceDefinitionCapacity,
    metricsCEok, topoCE]
  by_cases h1 : rid = "r1"
  · subst h1
    rw [List.find?_cons_of_pos _ (by decide), List.find?_cons_of_pos _ (by decide)]
    dsimp only
    by_cases h2 : nm = "eth0"
    · subst h2
      rw [List.find?_cons_of_pos _ (by decide), List.find?_cons_of_pos _ (by decide)]
    · rw [List.find?_cons_of_neg _
          (by simp only [decide_eq_true_eq]; exact fun h => h2 h.symm),
        List.find?_cons_of_neg _
          (by simp only [decide_eq_true_eq]; exact fun h => h2 h.symm)]
      rfl
  · by_cases h2 : rid = "r2"
    · subst h2
      rw [List.find?_cons_of_neg _ (by decide), List.find?_cons_of_pos _ (by decide),
        List.find?_cons_of_neg _ (by decide), List.find?_cons_of_pos _ (by decide)]
      dsimp only
      by_cases h3 : nm = "eth1"
      · subst h3
        rw [List.find?_cons_of_pos _ (by decide), List.find?_cons_of_pos _ (by decide)]
      · rw [List.find?_cons_of_neg _
            (by simp only [decide_eq_true_eq]; exact fun h => h3 h.symm),
          List.find?_cons_of_neg _
            (by simp only [decide_eq_true_eq]; exact fun h => h3 h.symm)]
        rfl
    · rw [List.find?_cons_of_neg _
          (by simp only [decide_eq_true_eq]; exact fun h => h1 h.symm),
        List.find?_cons_of_neg _
          (by simp only [decide_eq_true_eq]; exact fun h => h2 h.symm),
        List.find?_cons_of_neg _
          (by simp only [decide_eq_true_eq]; exact fun h => h1 h.symm),
        List.find?_cons_of_neg _
          (by simp only [decide_eq_true_eq]; exact fun h => h2 h.symm)]
      rfl

/-- C5 witness: on the concrete topology whose metric and configured
capacities agree, the two back-ends' capacity lists and ranges coincide. -/
theorem backendEquivalence_amended_witness :
    utilToColorFE (some 1) = utilToColor (some 1) ∧
    capacityToWidthFE id (some 3) (some (1, 4)) = capacityToWidth id (some 3) (some (1, 4)) ∧
    capacitiesFE topoCE metricsCEok = capacitiesMR topoCE ∧
    rangeOf (capacitiesFE topoCE metricsCEok) = rangeOf (capacitiesMR topoCE) := by
  have h := backendEquivalence_amended
  have h3 := h.2.2 topoCE metricsCEok capAgreement_ok
  exact ⟨h.1 (some 1), h.2.1 id (some 3) (some (1, 4)), h3.2.1, h3.2.2⟩

end Weathermap
